import Mathlib

/-!
Verification of the concurrency and coordination primitives of a real-time
chat server: an LRU replacement cache, a counting semaphore with FIFO
waiters, a round-robin load balancer, a four-level priority message queue
with bounded retry, a resource-allocation-graph deadlock detector, and the
socket handler composing them.  Each component is embedded as a pure state
machine mirroring the corresponding TypeScript class, and the stated
properties are proved or refuted against these embeddings.
-/

namespace Fmt

/-- Decimal digit character; 48 is the code point of the zero digit. -/
def digitChar (n : Nat) : Char := Char.ofNat (48 + n)

/-- Decimal rendering of a natural number, most significant digit first.
Models the integer part of the JS number-to-string conversion used by
`toFixed`. -/
def natChars (n : Nat) : List Char :=
  if n < 10 then [digitChar n]
  else natChars (n / 10) ++ [digitChar (n % 10)]
termination_by n
decreasing_by exact Nat.div_lt_self (by omega) (by omega)

/-- The two fraction digits of `toFixed(2)`, zero padded on the left. -/
def pad2 (n : Nat) : List Char := if n < 10 then ['0', digitChar n] else natChars n

/-- Render a quantity counted in hundredths with exactly two decimal places,
as JS `x.toFixed(2)` renders the nonnegative number `x`. -/
def toFixed2 (hundredths : Nat) : String :=
  ⟨natChars (hundredths / 100) ++ '.' :: pad2 (hundredths % 100)⟩

/-- The percentage value `num / den * 100` rendered by `toFixed(2)`: the
exact rational is rounded half-up to hundredths of a percent (the
double-precision rounding of the source is abstracted to exact rational
rounding, which does not affect the shape of the output); division by zero
yields the JS `NaN` and `Infinity` renderings. -/
def pctCore (num den : Nat) : String :=
  if den = 0 then (if num = 0 then "NaN" else "Infinity")
  else toFixed2 ((num * 20000 + den) / (2 * den))

/-- The average `num / den` rendered by `toFixed(2)` (same rounding model). -/
def avgCore (num den : Nat) : String :=
  if den = 0 then "NaN" else toFixed2 ((num * 200 + den) / (2 * den))

/-- A reversed character list of the form: two digits, a dot, then a
nonempty all-digit integer part. -/
def twoDecList : List Char → Bool
  | d0 :: d1 :: '.' :: c :: rest =>
    d0.isDigit && d1.isDigit && (c :: rest).all (fun x => x.isDigit)
  | _ => false

/-- The string is a decimal numeral with exactly two digits after the
decimal point. -/
def isTwoDec (s : String) : Bool := twoDecList s.data.reverse

/-- The string is such a two-decimal numeral followed by a trailing percent
sign. -/
def isTwoDecPct (s : String) : Bool :=
  match s.data.reverse with
  | '%' :: t => twoDecList t
  | _ => false

end Fmt

/-- State of the LRU cache: `entries` is the recency sequence of the doubly
linked node list of the source, head first (most recently used); the `Map`
index of the source is exactly the key set of `entries`.  The node fields
`accessCount` and `lastAccessed` influence no behaviour (eviction is by
list position) and are omitted. -/
structure LRUCache (K V : Type) where
  capacity : Nat
  entries : List (K × V)
  hits : Nat
  misses : Nat
deriving DecidableEq

/-- A freshly constructed cache. -/
def LRUCache.empty (K V : Type) (capacity : Nat) : LRUCache K V :=
  ⟨capacity, [], 0, 0⟩

/-- The keys currently cached, most recently used first. -/
def LRUCache.keys {K V : Type} (c : LRUCache K V) : List K :=
  c.entries.map Prod.fst

/-- `get`: a miss bumps the miss counter; a hit bumps the hit counter and
moves the node to the front of the recency sequence. -/
def LRUCache.get {K V : Type} [DecidableEq K] (k : K) (c : LRUCache K V) :
    Option V × LRUCache K V :=
  match c.entries.find? (fun e => decide (e.1 = k)) with
  | none => (none, { c with misses := c.misses + 1 })
  | some e =>
    (some e.2,
      { c with
        hits := c.hits + 1
        entries := (e.1, e.2) :: c.entries.filter (fun e2 => decide (e2.1 ≠ k)) })

/-- `put`: an existing key is updated and refreshed (moved to the front);
otherwise, when the cache is at capacity, the tail of the recency sequence
is evicted before the new node is pushed at the head. -/
def LRUCache.put {K V : Type} [DecidableEq K] (k : K) (v : V) (c : LRUCache K V) :
    LRUCache K V :=
  if k ∈ c.keys then
    { c with entries := (k, v) :: c.entries.filter (fun e => decide (e.1 ≠ k)) }
  else
    let entries1 := if c.capacity ≤ c.entries.length then c.entries.dropLast else c.entries
    { c with entries := (k, v) :: entries1 }

/-- Fold a sequence of `put` calls over the cache. -/
def LRUCache.putList {K V : Type} [DecidableEq K] (c : LRUCache K V)
    (l : List (K × V)) : LRUCache K V :=
  l.foldl (fun c e => LRUCache.put e.1 e.2 c) c

/-- The statistics record returned by `LRUCache.getStats`. -/
structure CacheStats where
  size : Nat
  capacity : Nat
  hits : Nat
  misses : Nat
  hitRate : String
  utilizationRate : String
deriving DecidableEq

/-- `getStats`: the hit rate core is the number `0` (rendered `"0"`) when no
access has happened yet, otherwise the two-decimal percentage; the template
string appends the percent sign to either. -/
def LRUCache.getStats {K V : Type} (c : LRUCache K V) : CacheStats :=
  { size := c.entries.length
    capacity := c.capacity
    hits := c.hits
    misses := c.misses
    hitRate :=
      (if 0 < c.hits + c.misses then Fmt.pctCore c.hits (c.hits + c.misses) else "0") ++ "%"
    utilizationRate := Fmt.pctCore c.entries.length c.capacity ++ "%" }

/-- State of the counting semaphore: the permit counter, the construction
capacity, and the FIFO queue of suspended callers.  Each stored `resolve`
callback of the source is represented by a numeric token identifying the
suspended caller. -/
structure Semaphore where
  permits : Nat
  maxPermits : Nat
  waitQueue : List Nat
deriving DecidableEq

/-- A freshly constructed semaphore of the given capacity. -/
def Semaphore.create (c : Nat) : Semaphore := ⟨c, c, []⟩

/-- `acquire`: takes a permit and completes immediately (`true`) when one is
available, otherwise appends the caller to the FIFO wait queue and reports
suspension (`false`). -/
def Semaphore.acquire (w : Nat) (s : Semaphore) : Bool × Semaphore :=
  if 0 < s.permits then (true, { s with permits := s.permits - 1 })
  else (false, { s with waitQueue := s.waitQueue ++ [w] })

/-- `release`: hands the freed permit directly to the oldest queued waiter
when one is suspended (returning the resumed waiter and leaving the counter
unchanged), otherwise increments the counter. -/
def Semaphore.release (s : Semaphore) : Option Nat × Semaphore :=
  match s.waitQueue with
  | w :: rest => (some w, { s with waitQueue := rest })
  | [] => (none, { s with permits := s.permits + 1 })

/-- `tryAcquire`: non-blocking variant, fails fast without queueing. -/
def Semaphore.tryAcquire (s : Semaphore) : Bool × Semaphore :=
  if 0 < s.permits then (true, { s with permits := s.permits - 1 }) else (false, s)

/-- `availablePermits`. -/
def Semaphore.availablePermits (s : Semaphore) : Nat := s.permits

/-- `n` consecutive `acquire` calls (the waiter token is irrelevant for
calls that complete immediately). -/
def Semaphore.acquireN : Nat → Semaphore → Semaphore
  | 0, s => s
  | n + 1, s => Semaphore.acquireN n (Semaphore.acquire 0 s).2

/-- The statistics record returned by `Semaphore.getStats`.  The `inUse`
and utilization numerator `maxPermits - permits` is the JS subtraction; the
embedding uses the natural subtraction, which agrees whenever
`permits ≤ maxPermits`. -/
structure SemStats where
  available : Nat
  capacity : Nat
  inUse : Nat
  queueLength : Nat
  utilizationRate : String
deriving DecidableEq

/-- `getStats` of the semaphore. -/
def Semaphore.getStats (s : Semaphore) : SemStats :=
  { available := s.permits
    capacity := s.maxPermits
    inUse := s.maxPermits - s.permits
    queueLength := s.waitQueue.length
    utilizationRate := Fmt.pctCore (s.maxPermits - s.permits) s.maxPermits ++ "%" }

/-- One external operation on the semaphore: a (possibly suspending)
`acquire` by the caller with the given token, a `tryAcquire`, or a
`release`. -/
inductive SemOp
  | acq (w : Nat)
  | tryAcq
  | rel
deriving DecidableEq

/-- The semaphore together with ghost accounting: `grants` counts permits
handed out (immediate acquires, successful tryAcquires, and waiters resumed
by a release); `rels` counts release calls. -/
structure SemRun where
  sem : Semaphore
  grants : Nat
  rels : Nat
deriving DecidableEq

/-- The run state of a freshly constructed semaphore. -/
def SemRun.start (c : Nat) : SemRun := ⟨Semaphore.create c, 0, 0⟩

/-- One step of the instrumented semaphore. -/
def semStep (st : SemRun) : SemOp → SemRun
  | .acq w =>
    let r := st.sem.acquire w
    { st with sem := r.2, grants := st.grants + (if r.1 then 1 else 0) }
  | .tryAcq =>
    let r := st.sem.tryAcquire
    { st with sem := r.2, grants := st.grants + (if r.1 then 1 else 0) }
  | .rel =>
    let r := st.sem.release
    { st with
      sem := r.2
      rels := st.rels + 1
      grants := st.grants + (match r.1 with | some _ => 1 | none => 0) }

/-- Run a sequence of semaphore operations. -/
def semRun (ops : List SemOp) (st : SemRun) : SemRun := ops.foldl semStep st

/-- A sequence of operations is well-matched when every `release` is issued
while at least one granted permit is outstanding (no unmatched release). -/
def semWF : List SemOp → SemRun → Bool
  | [], _ => true
  | op :: rest, st =>
    (match op with
     | .rel => decide (st.rels < st.grants)
     | _ => true) && semWF rest (semStep st op)

/-- A worker of the round-robin scheduler.  The field `lastAssigned` is a
wall-clock timestamp that influences no behaviour and is omitted. -/
structure Worker where
  id : String
  load : Nat
  maxLoad : Nat
  active : Bool
deriving DecidableEq

/-- State of the round-robin scheduler: the worker list and the rotating
cursor.  The `quantum` constructor argument influences no behaviour and is
omitted. -/
structure RoundRobinScheduler where
  workers : List Worker
  currentIndex : Nat
deriving DecidableEq

/-- A freshly constructed scheduler. -/
def RoundRobinScheduler.create : RoundRobinScheduler := ⟨[], 0⟩

/-- `addWorker` appends a fresh active worker with zero load. -/
def RoundRobinScheduler.addWorker (id : String) (maxLoad : Nat)
    (s : RoundRobinScheduler) : RoundRobinScheduler :=
  { s with workers := s.workers ++ [⟨id, 0, maxLoad, true⟩] }

/-- `removeWorker` filters the worker out of the list; the cursor is left
untouched by the source. -/
def RoundRobinScheduler.removeWorker (id : String) (s : RoundRobinScheduler) :
    RoundRobinScheduler :=
  { s with workers := s.workers.filter (fun w => decide (w.id ≠ id)) }

/-- One scan step of the `assignTask` loop, with the remaining attempt
count as the first argument.  The loop reads the worker slot at the cursor:
in JS an index at or past the array length yields `undefined`, and the
subsequent `worker.active` field access throws a `TypeError`, modelled as
`Except.error`. -/
def assignLoop : Nat → RoundRobinScheduler → Except Unit (Option Worker × RoundRobinScheduler)
  | 0, s => .ok (none, s)
  | att + 1, s =>
    match s.workers.get? s.currentIndex with
    | none => .error ()
    | some w =>
      let s1 : RoundRobinScheduler :=
        { s with currentIndex := (s.currentIndex + 1) % s.workers.length }
      if w.active && decide (w.load < w.maxLoad) then
        let w1 : Worker := { w with load := w.load + 1 }
        .ok (some w1, { s1 with workers := s1.workers.set s.currentIndex w1 })
      else assignLoop att s1

/-- `assignTask`: returns `none` on an empty pool, otherwise scans at most
one full rotation for an active worker below its load bound, incrementing
the load of the worker found. -/
def RoundRobinScheduler.assignTask (s : RoundRobinScheduler) :
    Except Unit (Option Worker × RoundRobinScheduler) :=
  if s.workers.length = 0 then .ok (none, s) else assignLoop s.workers.length s

/-- Decrement the load of the first worker carrying the given id, flooring
at zero (the source's `find` followed by a guarded decrement). -/
def releaseTaskList (id : String) : List Worker → List Worker
  | [] => []
  | w :: ws =>
    if w.id = id then (if 0 < w.load then { w with load := w.load - 1 } else w) :: ws
    else w :: releaseTaskList id ws

/-- `releaseTask`. -/
def RoundRobinScheduler.releaseTask (id : String) (s : RoundRobinScheduler) :
    RoundRobinScheduler :=
  { s with workers := releaseTaskList id s.workers }

/-- The JS value of the `avgLoad` statistics field, which is a two-decimal
string when workers exist and the bare number `0` otherwise. -/
inductive JSVal
  | str (s : String)
  | num (n : Nat)
deriving DecidableEq

/-- The per-worker entry of the scheduler statistics. -/
structure WorkerStats where
  id : String
  load : Nat
  maxLoad : Nat
  utilizationRate : String
deriving DecidableEq

/-- The statistics record returned by `RoundRobinScheduler.getStats`. -/
structure SchedStats where
  totalWorkers : Nat
  activeWorkers : Nat
  totalLoad : Nat
  totalCapacity : Nat
  avgLoad : JSVal
  utilizationRate : String
  workers : List WorkerStats
deriving DecidableEq

/-- `getStats` of the scheduler. -/
def RoundRobinScheduler.getStats (s : RoundRobinScheduler) : SchedStats :=
  let totalLoad := (s.workers.map (fun w => w.load)).sum
  let totalCapacity := (s.workers.map (fun w => w.maxLoad)).sum
  { totalWorkers := s.workers.length
    activeWorkers := (s.workers.filter (fun w => w.active)).length
    totalLoad := totalLoad
    totalCapacity := totalCapacity
    avgLoad :=
      if 0 < s.workers.length then .str (Fmt.avgCore totalLoad s.workers.length)
      else .num 0
    utilizationRate :=
      if 0 < totalCapacity then Fmt.pctCore totalLoad totalCapacity ++ "%" else "0%"
    workers := s.workers.map (fun w => ⟨w.id, w.load, w.maxLoad, Fmt.pctCore w.load w.maxLoad ++ "%"⟩) }

/-- The four message priority levels, highest first. -/
inductive MessagePriority
  | urgent
  | high
  | normal
  | low
deriving DecidableEq

/-- A queued message.  The scheduling-relevant fields (`priority`,
`timestamp`, `retries`) are explicit; the remaining payload fields of the
source record (`id`, `threadId`, `message`) are grouped into `data`. -/
structure QMsg (δ : Type) where
  data : δ
  priority : MessagePriority
  timestamp : Nat
  retries : Nat
deriving DecidableEq

/-- The retry budget of the queue. -/
def maxRetries : Nat := 3

/-- State of the priority queue: one FIFO bucket per priority level (the
four entries of the source's `Map`). -/
structure PriorityMessageQueue (δ : Type) where
  urgent : List (QMsg δ)
  high : List (QMsg δ)
  normal : List (QMsg δ)
  low : List (QMsg δ)
deriving DecidableEq

/-- A freshly constructed queue. -/
def PriorityMessageQueue.create (δ : Type) : PriorityMessageQueue δ := ⟨[], [], [], []⟩

/-- Stable insertion of a message after every entry whose timestamp is not
greater than its own. -/
def insertByTs {δ : Type} (m : QMsg δ) : List (QMsg δ) → List (QMsg δ)
  | [] => [m]
  | x :: xs => if x.timestamp ≤ m.timestamp then x :: insertByTs m xs else m :: x :: xs

/-- Stable sort by ascending timestamp: the JS `Array.prototype.sort` with
comparator `(a, b) => a.timestamp - b.timestamp` is a stable sort by
timestamp, which is uniquely determined and realised here as a left fold of
stable insertions. -/
def sortByTs {δ : Type} (l : List (QMsg δ)) : List (QMsg δ) :=
  l.foldl (fun acc m => insertByTs m acc) []

/-- `enqueue`: push into the bucket of the message's priority, then re-sort
the bucket by timestamp. -/
def PriorityMessageQueue.enqueue {δ : Type} (m : QMsg δ) (q : PriorityMessageQueue δ) :
    PriorityMessageQueue δ :=
  match m.priority with
  | .urgent => { q with urgent := sortByTs (q.urgent ++ [m]) }
  | .high => { q with high := sortByTs (q.high ++ [m]) }
  | .normal => { q with normal := sortByTs (q.normal ++ [m]) }
  | .low => { q with low := sortByTs (q.low ++ [m]) }

/-- `dequeue`: the head of the highest non-empty bucket. -/
def PriorityMessageQueue.dequeue {δ : Type} (q : PriorityMessageQueue δ) :
    Option (QMsg δ × PriorityMessageQueue δ) :=
  match q.urgent with
  | m :: rest => some (m, { q with urgent := rest })
  | [] =>
    match q.high with
    | m :: rest => some (m, { q with high := rest })
    | [] =>
      match q.normal with
      | m :: rest => some (m, { q with normal := rest })
      | [] =>
        match q.low with
        | m :: rest => some (m, { q with low := rest })
        | [] => none

/-- The observable outcome of one delivery attempt sequence: a successful
send, or the drop reported to the observability sink (the source's
`console.error` after the retry budget is exhausted).  Failures are never
thrown to the submitter: the drain is a total function yielding events. -/
inductive DeliveryEv (δ : Type)
  | delivered (m : QMsg δ)
  | dropped (m : QMsg δ)
deriving DecidableEq

/-- The single-flight drain loop of `processQueue`: repeatedly dequeue the
head of the highest non-empty bucket and attempt delivery through the
oracle `ok` (a function of the message payload and its current retry
count); on failure the message is re-enqueued with an incremented retry
counter while below `maxRetries`, and dropped (with an observer event)
otherwise.  `fuel` bounds the iteration count and is chosen large enough in
every use. -/
def processQueue {δ : Type} (ok : δ → Nat → Bool) :
    Nat → PriorityMessageQueue δ → PriorityMessageQueue δ × List (DeliveryEv δ)
  | 0, q => (q, [])
  | fuel + 1, q =>
    match q.dequeue with
    | none => (q, [])
    | some (m, q1) =>
      if ok m.data m.retries then
        let r := processQueue ok fuel q1
        (r.1, .delivered m :: r.2)
      else if m.retries < maxRetries then
        processQueue ok fuel (q1.enqueue { m with retries := m.retries + 1 })
      else
        let r := processQueue ok fuel q1
        (r.1, .dropped m :: r.2)

/-- The statistics record returned by `PriorityMessageQueue.getStats`. -/
structure QueueStats where
  urgent : Nat
  high : Nat
  normal : Nat
  low : Nat
  total : Nat
deriving DecidableEq

/-- `getStats` of the queue. -/
def PriorityMessageQueue.getStats {δ : Type} (q : PriorityMessageQueue δ) : QueueStats :=
  { urgent := q.urgent.length
    high := q.high.length
    normal := q.normal.length
    low := q.low.length
    total := q.urgent.length + q.high.length + q.normal.length + q.low.length }

/-- Count of drop events in a delivery trace. -/
def countDropped {δ : Type} (evs : List (DeliveryEv δ)) : Nat :=
  (evs.filter (fun e => match e with | .dropped _ => true | _ => false)).length

/-- Count of successful deliveries in a delivery trace. -/
def countDelivered {δ : Type} (evs : List (DeliveryEv δ)) : Nat :=
  (evs.filter (fun e => match e with | .delivered _ => true | _ => false)).length

/-- Lookup in an insertion-ordered association list (a JS `Map`). -/
def lookupA {ι A : Type} [DecidableEq ι] (l : List (ι × A)) (k : ι) : Option A :=
  (l.find? (fun e => decide (e.1 = k))).map Prod.snd

/-- In-place update of the entry at a key of an association list (mutation
of the object held by a JS `Map`). -/
def updateA {ι A : Type} [DecidableEq ι] (l : List (ι × A)) (k : ι) (f : A → A) :
    List (ι × A) :=
  l.map (fun e => if e.1 = k then (e.1, f e.2) else e)

/-- `Map.set`: update an existing key in place, or append the new binding in
insertion order. -/
def setA {ι A : Type} [DecidableEq ι] (l : List (ι × A)) (k : ι) (v : A) :
    List (ι × A) :=
  if (lookupA l k).isSome then updateA l k (fun _ => v) else l ++ [(k, v)]

/-- A resource node of the deadlock detector.  The `type` field is the
constant string "thread" and is omitted. -/
structure Resource (ι : Type) where
  holder : Option ι
  waitQueue : List ι
deriving DecidableEq

/-- A process node of the deadlock detector. -/
structure Process (ι : Type) where
  holding : List ι
  waiting : List ι
deriving DecidableEq

/-- State of the deadlock detector: insertion-ordered maps from resource
and process identifiers to their nodes.  The identifier type is a
parameter (strings in the source). -/
structure DeadlockDetector (ι : Type) where
  resources : List (ι × Resource ι)
  processes : List (ι × Process ι)
deriving DecidableEq

/-- A freshly constructed detector. -/
def DeadlockDetector.empty (ι : Type) : DeadlockDetector ι := ⟨[], []⟩

/-- The resource-allocation graph: process nodes with their waiting edges
first (in process insertion order), then resource nodes with their holder
edge (in resource insertion order), merged by identifier exactly as the
source builds one `Map` over both kinds of node. -/
def buildRAG {ι : Type} [DecidableEq ι] (s : DeadlockDetector ι) : List (ι × List ι) :=
  let g1 := s.processes.foldl
    (fun g pe =>
      let g := if (lookupA g pe.1).isSome then g else g ++ [(pe.1, [])]
      pe.2.waiting.foldl (fun g rid => updateA g pe.1 (fun ns => ns ++ [rid])) g)
    []
  s.resources.foldl
    (fun g re =>
      let g := if (lookupA g re.1).isSome then g else g ++ [(re.1, [])]
      match re.2.holder with
      | some h => updateA g re.1 (fun ns => ns ++ [h])
      | none => g)
    g1

/-- Neighbour list of a node of the graph (the source's `graph.get(node) || []`). -/
def neighborsOf {ι : Type} [DecidableEq ι] (g : List (ι × List ι)) (node : ι) : List ι :=
  (lookupA g node).getD []

mutual

/-- Depth-first search step of the source's cycle detection: mark the node
visited and on the recursion stack, then scan its neighbours.  Returns the
cycle flag and the updated visited set; `none` on fuel exhaustion (never
reached with the fuel chosen by `hasCycle`, which exceeds the node count
plus edge count traversable by the search). -/
def dfsNode {ι : Type} [DecidableEq ι] (g : List (ι × List ι)) :
    Nat → ι → List ι → List ι → Option (Bool × List ι)
  | 0, _, _, _ => none
  | fuel + 1, node, visited, recStack =>
    dfsNeighbors g fuel (neighborsOf g node) (node :: visited) (node :: recStack)

/-- Scan the neighbour list: recurse into unvisited neighbours, flag a
cycle on a neighbour found on the recursion stack. -/
def dfsNeighbors {ι : Type} [DecidableEq ι] (g : List (ι × List ι)) :
    Nat → List ι → List ι → List ι → Option (Bool × List ι)
  | 0, _, _, _ => none
  | _ + 1, [], visited, _ => some (false, visited)
  | fuel + 1, nb :: rest, visited, recStack =>
    if nb ∈ visited then
      if nb ∈ recStack then some (true, visited)
      else dfsNeighbors g fuel rest visited recStack
    else
      match dfsNode g fuel nb visited recStack with
      | none => none
      | some (true, visited1) => some (true, visited1)
      | some (false, visited1) => dfsNeighbors g fuel rest visited1 recStack

end

/-- The outer loop of `hasCycle`: run a DFS from every not-yet-visited
graph key, in insertion order. -/
def hasCycleLoop {ι : Type} [DecidableEq ι] (g : List (ι × List ι)) (fuel : Nat) :
    List ι → List ι → Option Bool
  | [], _ => some false
  | k :: ks, visited =>
    if k ∈ visited then hasCycleLoop g fuel ks visited
    else
      match dfsNode g fuel k visited [] with
      | none => none
      | some (true, _) => some true
      | some (false, visited1) => hasCycleLoop g fuel ks visited1

/-- `hasCycle` over the allocation graph, with fuel ample for any DFS (the
recursion depth is bounded by the number of distinct nodes, itself bounded
by the key count plus the total neighbour count). -/
def hasCycle {ι : Type} [DecidableEq ι] (g : List (ι × List ι)) : Option Bool :=
  hasCycleLoop g (2 * (g.length + (g.map (fun e => e.2.length)).sum) + 2) (g.map Prod.fst) []

/-- `detectDeadlock`: build the graph and search for a cycle.  The fuel
default on exhaustion is never exercised. -/
def DeadlockDetector.detectDeadlock {ι : Type} [DecidableEq ι] (s : DeadlockDetector ι) : Bool :=
  (hasCycle (buildRAG s)).getD false

/-- `requestResource`: create missing nodes, grant a free resource
immediately, otherwise register the wait and run the cycle check; a
detected cycle retracts the requester's own pending wait and denies the
request.  A held resource always yields `false`. -/
def DeadlockDetector.requestResource {ι : Type} [DecidableEq ι]
    (s : DeadlockDetector ι) (processId resourceId : ι) : Bool × DeadlockDetector ι :=
  let resLook := lookupA s.resources resourceId
  let res : Resource ι := match resLook with
    | some r => r
    | none => ⟨none, []⟩
  let resources1 := match resLook with
    | some _ => s.resources
    | none => s.resources ++ [(resourceId, res)]
  let procLook := lookupA s.processes processId
  let processes1 := match procLook with
    | some _ => s.processes
    | none => s.processes ++ [(processId, (⟨[], []⟩ : Process ι))]
  match res.holder with
  | none =>
    let resources2 := updateA resources1 resourceId (fun r => { r with holder := some processId })
    let processes2 := updateA processes1 processId (fun p => { p with holding := p.holding ++ [resourceId] })
    (true, ⟨resources2, processes2⟩)
  | some _ =>
    let resources2 := updateA resources1 resourceId (fun r => { r with waitQueue := r.waitQueue ++ [processId] })
    let processes2 := updateA processes1 processId (fun p => { p with waiting := p.waiting ++ [resourceId] })
    let s2 : DeadlockDetector ι := ⟨resources2, processes2⟩
    if s2.detectDeadlock then
      let resources3 := updateA resources2 resourceId
        (fun r => { r with waitQueue := r.waitQueue.filter (fun q => decide (q ≠ processId)) })
      let processes3 := updateA processes2 processId
        (fun p => { p with waiting := p.waiting.filter (fun x => decide (x ≠ resourceId)) })
      (false, ⟨resources3, processes3⟩)
    else
      (false, s2)

/-- `releaseResource`: clear the holder only when it matches the caller,
then hand the resource to the oldest queued waiter when one exists and is a
known process. -/
def DeadlockDetector.releaseResource {ι : Type} [DecidableEq ι]
    (s : DeadlockDetector ι) (processId resourceId : ι) : DeadlockDetector ι :=
  match lookupA s.resources resourceId, lookupA s.processes processId with
  | some res, some _ =>
    if res.holder = some processId then
      let resources1 := updateA s.resources resourceId (fun r => { r with holder := none })
      let processes1 := updateA s.processes processId
        (fun p => { p with holding := p.holding.filter (fun x => decide (x ≠ resourceId)) })
      match res.waitQueue with
      | [] => ⟨resources1, processes1⟩
      | nextP :: restQ =>
        let resources2 := updateA resources1 resourceId (fun r => { r with waitQueue := restQ })
        match lookupA processes1 nextP with
        | none => ⟨resources2, processes1⟩
        | some _ =>
          let resources3 := updateA resources2 resourceId (fun r => { r with holder := some nextP })
          let processes2 := updateA processes1 nextP
            (fun p => { p with holding := p.holding ++ [resourceId]
                               waiting := p.waiting.filter (fun x => decide (x ≠ resourceId)) })
          ⟨resources3, processes2⟩
    else s
  | _, _ => s

/-- The holder of a resource in a detector state, `none` when the resource
is unknown or free. -/
def DeadlockDetector.holderOf {ι : Type} [DecidableEq ι]
    (s : DeadlockDetector ι) (resourceId : ι) : Option ι :=
  match lookupA s.resources resourceId with
  | none => none
  | some r => r.holder

/-- The resource is free at the moment of the call: unknown, or known with
no holder. -/
def DeadlockDetector.holderFree {ι : Type} [DecidableEq ι]
    (s : DeadlockDetector ι) (resourceId : ι) : Bool :=
  match lookupA s.resources resourceId with
  | none => true
  | some r => r.holder.isNone

/-- The wait queue of a resource, empty when the resource is unknown. -/
def DeadlockDetector.waitQueueOf {ι : Type} [DecidableEq ι]
    (s : DeadlockDetector ι) (resourceId : ι) : List ι :=
  match lookupA s.resources resourceId with
  | none => []
  | some r => r.waitQueue

/-- The waiting set of a process, empty when the process is unknown. -/
def DeadlockDetector.waitingOf {ι : Type} [DecidableEq ι]
    (s : DeadlockDetector ι) (processId : ι) : List ι :=
  match lookupA s.processes processId with
  | none => []
  | some p => p.waiting

/-- Does the list start with the given pattern? -/
def startsWithL {α : Type} [DecidableEq α] : List α → List α → Bool
  | [], _ => true
  | _ :: _, [] => false
  | p :: ps, x :: xs => if p = x then startsWithL ps xs else false

/-- Does the list contain the pattern as a contiguous infix? -/
def hasInfixL {α : Type} [DecidableEq α] (pat : List α) : List α → Bool
  | [] => startsWithL pat []
  | x :: xs => startsWithL pat (x :: xs) || hasInfixL pat xs

/-- The JS `String.prototype.includes`. -/
def strIncludes (s pat : String) : Bool := hasInfixL pat.data s.data

/-- The priority classification of the send-message handler: the lowercased
content is scanned for urgency keywords, then for the importance keyword or
a leading marker character. -/
def classifyPriority (content : String) : MessagePriority :=
  let lc := content.toLower
  if strIncludes lc "urgent" || strIncludes lc "emergency" then .urgent
  else if strIncludes lc "important" || lc.startsWith "@" then .high
  else .normal

/-- A chat message as carried by the socket events. -/
structure Message where
  id : String
  senderId : String
  content : String
  timestamp : String
deriving DecidableEq

/-- A conversation thread with its participant list and message log. -/
structure Thread where
  id : String
  participants : List String
  messages : List Message
deriving DecidableEq

/-- A connected user record. -/
structure User where
  id : String
  name : String
  online : Bool
  socketId : Option String
deriving DecidableEq

/-- An in-memory group (named `Group` in the source, renamed here to avoid
the algebraic `Group` of the ambient library). -/
structure ChatGroup where
  id : String
  name : String
  members : List String
deriving DecidableEq

/-- The payload grouped into the queue messages of the server: the message
id, the thread id, and the message itself. -/
def SPayload : Type := String × String × Message

instance : DecidableEq SPayload := by
  unfold SPayload
  infer_instance

/-- The module-level server state acted on by the send-message handler: the
priority queue, the thread LRU cache, the threads store, the user and group
registries, the round-robin scheduler, and the deadlock detector. -/
structure ServerState where
  messageQueue : PriorityMessageQueue SPayload
  threadCache : LRUCache String Thread
  threads : List (String × Thread)
  users : List (String × User)
  groups : List (String × ChatGroup)
  messageScheduler : RoundRobinScheduler
  deadlockDetector : DeadlockDetector String
deriving DecidableEq

/-- The socket emissions of the send-message handler: the error emitted to
the sender on a denied resource request, and the fan-out of the message to
a participant's socket. -/
inductive SocketEv
  | errorEmitted
  | receiveMessage (socketId : String) (threadId : String) (m : Message)
deriving DecidableEq

/-- The fan-out loop: emit to each participant's socket at most once,
tracking the already-emitted socket ids. -/
def fanOut (usersL : List (String × User)) (threadId : String) (m : Message)
    (parts : List String) : List SocketEv :=
  (parts.foldl
    (fun (acc : List SocketEv × List String) uid =>
      match lookupA usersL uid with
      | none => acc
      | some u =>
        match u.socketId with
        | none => acc
        | some sid =>
          if sid ∈ acc.2 then acc
          else (acc.1 ++ [SocketEv.receiveMessage sid threadId m], acc.2 ++ [sid]))
    ([], [])).1

/-- The thread targeted by a send: an existing record, or a fresh one whose
participants come from the group registry for `group-` thread ids and from
splitting the thread id otherwise. -/
def resolveThread (st : ServerState) (threadId : String) : Thread :=
  match lookupA st.threads threadId with
  | some t => t
  | none =>
    if threadId.startsWith "group-" then
      let gid := threadId.replace "group-" ""
      match lookupA st.groups gid with
      | some g => ⟨threadId, g.members, []⟩
      | none => ⟨threadId, threadId.splitOn "-", []⟩
    else ⟨threadId, threadId.splitOn "-", []⟩

/-- The send-message socket handler.  A denied `requestResource` emits an
error to the sender and returns before any later step.  Otherwise the
message is classified, enqueued (the asynchronous drain is not part of this
step), a worker is assigned, the thread record and cache are updated, the
message is fanned out to each distinct participant socket once, and the
worker and resource are released.  `now` is the enqueue wall-clock reading;
the `Except` propagates the possible scheduler crash of `assignTask`. -/
def sendMessageHandler (threadId : String) (m : Message) (now : Nat)
    (st : ServerState) : Except Unit (ServerState × List SocketEv) :=
  let dres := st.deadlockDetector.requestResource m.senderId threadId
  if dres.1 = false then
    .ok ({ st with deadlockDetector := dres.2 }, [SocketEv.errorEmitted])
  else
    let priority := classifyPriority m.content
    let q1 := st.messageQueue.enqueue ⟨(m.id, threadId, m), priority, now, 0⟩
    match st.messageScheduler.assignTask with
    | .error e => .error e
    | .ok (workerOpt, sched1) =>
      let thread1 :=
        let t := resolveThread st threadId
        { t with messages := t.messages ++ [m] }
      let threads1 := setA st.threads threadId thread1
      let cache1 := st.threadCache.put threadId thread1
      let evs := fanOut st.users threadId m thread1.participants
      let sched2 := match workerOpt with
        | some w => sched1.releaseTask w.id
        | none => sched1
      let dd2 := dres.2.releaseResource m.senderId threadId
      .ok ({ st with
              messageQueue := q1
              threadCache := cache1
              threads := threads1
              messageScheduler := sched2
              deadlockDetector := dd2 }, evs)

/-- The scheduler of the socket module after its three `addWorker` calls. -/
def c3sched : RoundRobinScheduler :=
  ((RoundRobinScheduler.create.addWorker "worker-1" 50).addWorker "worker-2" 50).addWorker "worker-3" 50

/-- The scheduler after one successful assignment (cursor at 1). -/
def c3mid : RoundRobinScheduler :=
  ⟨[⟨"worker-1", 1, 50, true⟩, ⟨"worker-2", 0, 50, true⟩, ⟨"worker-3", 0, 50, true⟩], 1⟩

/-- The scheduler after two successful assignments (cursor at 2). -/
def c3after2 : RoundRobinScheduler :=
  ⟨[⟨"worker-1", 1, 50, true⟩, ⟨"worker-2", 1, 50, true⟩, ⟨"worker-3", 0, 50, true⟩], 2⟩

/-- Three NORMAL-priority messages (payload tokens 1, 2, 3, enqueued at
times 1, 2, 3 with fresh retry counters) submitted to a fresh queue. -/
def c2queue : PriorityMessageQueue Nat :=
  ((((PriorityMessageQueue.create Nat).enqueue ⟨1, .normal, 1, 0⟩).enqueue
      ⟨2, .normal, 2, 0⟩).enqueue ⟨3, .normal, 3, 0⟩)

/-- The detector after process 1 has acquired resource 11 and process 2 has
acquired resource 12 (both grants succeed). -/
def c7grants : DeadlockDetector Nat :=
  (((DeadlockDetector.empty Nat).requestResource 1 11).2.requestResource 2 12).2

/-- Order A: process 1 first waits on resource 12, then process 2's request
for resource 11 completes the cycle. -/
def c7A3 : Bool × DeadlockDetector Nat := c7grants.requestResource 1 12

/-- Order A, the cycle-completing request. -/
def c7A4 : Bool × DeadlockDetector Nat := c7A3.2.requestResource 2 11

/-- Order B: process 2 first waits on resource 11, then process 1's request
for resource 12 completes the cycle. -/
def c7B3 : Bool × DeadlockDetector Nat := c7grants.requestResource 2 11

/-- Order B, the cycle-completing request. -/
def c7B4 : Bool × DeadlockDetector Nat := c7B3.2.requestResource 1 12

/-- Witness detector: an unrelated process already holds thread `t1`. -/
def w10dd : DeadlockDetector String :=
  ((DeadlockDetector.empty String).requestResource "bob" "t1").2

/-- Witness server state whose next sender will be denied. -/
def w10st : ServerState :=
  { messageQueue := PriorityMessageQueue.create SPayload
    threadCache := LRUCache.empty String Thread 100
    threads := []
    users := []
    groups := []
    messageScheduler := c3sched
    deadlockDetector := w10dd }

/-- Witness message. -/
def w10m : Message := ⟨"m1", "alice", "hello", "ts"⟩

/-- Concrete cache state used by the statistics witness. -/
def c8cache : LRUCache Nat Nat := ⟨100, [(1, 1)], 3, 1⟩

/-- Concrete semaphore state used by the statistics witness. -/
def c8sem : Semaphore := ⟨60, 100, []⟩

/-- Concrete scheduler state used by the statistics witness. -/
def c8sched : RoundRobinScheduler := ⟨[⟨"w", 1, 50, true⟩], 0⟩

namespace Fmt

theorem digitChar_isDigit {d : Nat} (h : d < 10) : (digitChar d).isDigit = true := by
  interval_cases d <;> decide

theorem natChars_ne_nil (n : Nat) : natChars n ≠ [] := by
  rw [natChars]
  split <;> simp

theorem natChars_all_digit (n : Nat) : ∀ c ∈ natChars n, c.isDigit = true := by
  induction n using Nat.strong_induction_on with
  | _ n ih =>
    rw [natChars]
    split
    · next h10 =>
      intro c hc
      simp only [List.mem_singleton] at hc
      subst hc
      exact digitChar_isDigit h10
    · next h10 =>
      intro c hc
      rcases List.mem_append.1 hc with h | h
      · exact ih (n / 10) (Nat.div_lt_self (by omega) (by omega)) c h
      · simp only [List.mem_singleton] at h
        subst h
        exact digitChar_isDigit (Nat.mod_lt _ (by omega))

theorem pad2_shape {n : Nat} (h : n < 100) :
    ∃ a b, pad2 n = [a, b] ∧ a.isDigit = true ∧ b.isDigit = true := by
  unfold pad2
  split
  · next h10 => exact ⟨'0', digitChar n, rfl, by decide, digitChar_isDigit h10⟩
  · next h10 =>
    have hdiv : n / 10 < 10 := Nat.div_lt_of_lt_mul (by omega)
    rw [natChars, if_neg h10, natChars, if_pos hdiv]
    exact ⟨digitChar (n / 10), digitChar (n % 10), rfl,
      digitChar_isDigit hdiv, digitChar_isDigit (Nat.mod_lt _ (by omega))⟩

theorem twoDecList_shape (ip : List Char) (hne : ip ≠ [])
    (hdig : ∀ c ∈ ip, c.isDigit = true) (a b : Char)
    (ha : a.isDigit = true) (hb : b.isDigit = true) :
    twoDecList ((ip ++ '.' :: [a, b]).reverse) = true := by
  cases hrev : ip.reverse with
  | nil => exact absurd (List.reverse_eq_nil_iff.1 hrev) hne
  | cons c rest =>
    have hx : (ip ++ '.' :: [a, b]).reverse = b :: a :: '.' :: (c :: rest) := by
      rw [List.reverse_append, hrev]
      rfl
    rw [hx]
    show (b.isDigit && a.isDigit && (c :: rest).all (fun x => x.isDigit)) = true
    have hmem : ∀ x ∈ c :: rest, x.isDigit = true := by
      intro x hxm
      apply hdig
      rw [← List.mem_reverse, hrev]
      exact hxm
    simp [ha, hb, List.all_eq_true]
    exact ⟨hmem c (List.mem_cons_self c rest), fun x hx => hmem x (List.mem_cons_of_mem c hx)⟩

theorem isTwoDec_toFixed2 (h : Nat) : isTwoDec (toFixed2 h) = true := by
  obtain ⟨a, b, hpad, ha, hb⟩ := pad2_shape (Nat.mod_lt h (by omega))
  show twoDecList ((natChars (h / 100) ++ '.' :: pad2 (h % 100)).reverse) = true
  rw [hpad]
  exact twoDecList_shape _ (natChars_ne_nil _) (natChars_all_digit _) a b ha hb

theorem isTwoDecPct_append (s : String) (h : isTwoDec s = true) :
    isTwoDecPct (s ++ "%") = true := by
  unfold isTwoDecPct
  rw [String.data_append, List.reverse_append]
  exact h

theorem isTwoDecPct_pctCore (num den : Nat) (h : den ≠ 0) :
    isTwoDecPct (pctCore num den ++ "%") = true := by
  unfold pctCore
  rw [if_neg h]
  exact isTwoDecPct_append _ (isTwoDec_toFixed2 _)

theorem isTwoDec_avgCore (num den : Nat) (h : den ≠ 0) :
    isTwoDec (avgCore num den) = true := by
  unfold avgCore
  rw [if_neg h]
  exact isTwoDec_toFixed2 _

end Fmt

/-- C8, counterexample.  In the initial (reachable) state with zero cache
accesses, the `hitRate` field of the cache statistics is the string `"0%"`,
which does not carry two decimal places, contradicting the claim that every
ratio field is a two-decimal percentage string in every reachable state. -/
theorem claim_C8_counterexample :
    (LRUCache.empty String Thread 100).getStats.hitRate = "0%" ∧
    Fmt.isTwoDecPct (LRUCache.empty String Thread 100).getStats.hitRate = false :=
  ⟨rfl, rfl⟩

/-- C8, amended.  Every ratio field of the statistics snapshots is a string
with exactly two decimal places (percentage fields with a trailing percent
sign) whenever its denominator is positive — for the hit rate, whenever at
least one access happened; in the documented degenerate cases the fields
fall back to `"0%"` (hit rate with no accesses, scheduler utilization with
zero total capacity) and to the bare number `0` (average load with no
workers). -/
theorem claim_C8_amended {K V : Type} (c : LRUCache K V) (sem : Semaphore)
    (sched : RoundRobinScheduler) :
    (0 < c.hits + c.misses → Fmt.isTwoDecPct c.getStats.hitRate = true) ∧
    (c.hits + c.misses = 0 → c.getStats.hitRate = "0%") ∧
    (0 < c.capacity → Fmt.isTwoDecPct c.getStats.utilizationRate = true) ∧
    (0 < sem.maxPermits → Fmt.isTwoDecPct sem.getStats.utilizationRate = true) ∧
    (0 < sched.getStats.totalCapacity → Fmt.isTwoDecPct sched.getStats.utilizationRate = true) ∧
    (sched.getStats.totalCapacity = 0 → sched.getStats.utilizationRate = "0%") ∧
    (sched.workers ≠ [] →
      ∃ str, sched.getStats.avgLoad = JSVal.str str ∧ Fmt.isTwoDec str = true) ∧
    (sched.workers = [] → sched.getStats.avgLoad = JSVal.num 0) ∧
    (∀ ws ∈ sched.getStats.workers, 0 < ws.maxLoad → Fmt.isTwoDecPct ws.utilizationRate = true) := by
  refine ⟨?_, ?_, ?_, ?_, ?_, ?_, ?_, ?_, ?_⟩
  · intro h
    simp only [LRUCache.getStats, if_pos h]
    exact Fmt.isTwoDecPct_pctCore _ _ (by omega)
  · intro h
    simp only [LRUCache.getStats, h]
    rfl
  · intro h
    simp only [LRUCache.getStats]
    exact Fmt.isTwoDecPct_pctCore _ _ (by omega)
  · intro h
    simp only [Semaphore.getStats]
    exact Fmt.isTwoDecPct_pctCore _ _ (by omega)
  · intro h
    simp only [RoundRobinScheduler.getStats] at h ⊢
    rw [if_pos h]
    exact Fmt.isTwoDecPct_pctCore _ _ (by omega)
  · intro h
    simp only [RoundRobinScheduler.getStats] at h ⊢
    rw [if_neg (by omega)]
  · intro h
    have hlen : 0 < sched.workers.length := List.length_pos.2 h
    simp only [RoundRobinScheduler.getStats, if_pos hlen]
    exact ⟨_, rfl, Fmt.isTwoDec_avgCore _ _ (by omega)⟩
  · intro h
    simp only [RoundRobinScheduler.getStats, h]
    rfl
  · intro ws hws hpos
    simp only [RoundRobinScheduler.getStats, List.mem_map] at hws
    obtain ⟨w, hw, hwe⟩ := hws
    subst hwe
    exact Fmt.isTwoDecPct_pctCore _ _ (by simp at hpos ⊢; omega)

/-- C8 witness: the amended statement applied at concrete cache, semaphore,
and scheduler states with positive denominators. -/
theorem claim_C8_amended_witness :
    Fmt.isTwoDecPct c8cache.getStats.hitRate = true ∧
    Fmt.isTwoDecPct c8cache.getStats.utilizationRate = true ∧
    Fmt.isTwoDecPct c8sem.getStats.utilizationRate = true ∧
    Fmt.isTwoDecPct c8sched.getStats.utilizationRate = true ∧
    (∃ str, c8sched.getStats.avgLoad = JSVal.str str ∧ Fmt.isTwoDec str = true) := by
  have h := claim_C8_amended c8cache c8sem c8sched
  exact ⟨h.1 (by decide), h.2.2.1 (by decide), h.2.2.2.1 (by decide),
    h.2.2.2.2.1 (by decide), h.2.2.2.2.2.2.1 (by decide)⟩

/-- Draining a semaphore with an empty wait queue by `k ≤ permits` acquires
decrements the counter `k` times and queues nobody. -/
theorem acquireN_drain : ∀ (k : Nat) (s : Semaphore), k ≤ s.permits → s.waitQueue = [] →
    Semaphore.acquireN k s = ⟨s.permits - k, s.maxPermits, []⟩ := by
  intro k
  induction k with
  | zero =>
    intro s _ hq
    cases s with
    | mk p m q =>
      simp only at hq
      subst hq
      rfl
  | succ k ih =>
    intro s hk hq
    have hpos : 0 < s.permits := by omega
    show Semaphore.acquireN k (Semaphore.acquire 0 s).2 = _
    rw [Semaphore.acquire, if_pos hpos]
    rw [ih _ (by simp; omega) (by simp [hq])]
    simp
    omega

/-- C4.  After `C` acquires on a fresh semaphore of capacity `C > 0` no
permit is available; the next acquire suspends and is appended to the FIFO
wait queue (likewise a further one); a single release resumes exactly the
oldest queued waiter, leaving the permit counter unchanged; and in general
`release` increments the counter exactly when the wait queue is empty. -/
theorem claim_C4 (C : Nat) (_hC : 0 < C) (w w2 : Nat) :
    Semaphore.availablePermits (Semaphore.acquireN C (Semaphore.create C)) = 0 ∧
    Semaphore.acquire w (Semaphore.acquireN C (Semaphore.create C)) = (false, ⟨0, C, [w]⟩) ∧
    Semaphore.acquire w2 ⟨0, C, [w]⟩ = (false, ⟨0, C, [w, w2]⟩) ∧
    Semaphore.release ⟨0, C, [w, w2]⟩ = (some w, ⟨0, C, [w2]⟩) ∧
    (∀ s : Semaphore,
      (s.release).2.permits = if s.waitQueue = [] then s.permits + 1 else s.permits) := by
  have hdrain : Semaphore.acquireN C (Semaphore.create C) = ⟨0, C, []⟩ := by
    rw [acquireN_drain C (Semaphore.create C) (le_refl _) rfl]
    simp [Semaphore.create]
  refine ⟨by rw [hdrain]; rfl, by rw [hdrain]; rfl, rfl, rfl, ?_⟩
  intro s
  cases h : s.waitQueue with
  | nil => simp [Semaphore.release, h]
  | cons a t => simp [Semaphore.release, h]

/-- C4 witness: capacity 2, waiter tokens 7 and 8. -/
theorem claim_C4_witness :
    Semaphore.availablePermits (Semaphore.acquireN 2 (Semaphore.create 2)) = 0 ∧
    Semaphore.acquire 7 (Semaphore.acquireN 2 (Semaphore.create 2)) = (false, ⟨0, 2, [7]⟩) ∧
    Semaphore.acquire 8 ⟨0, 2, [7]⟩ = (false, ⟨0, 2, [7, 8]⟩) ∧
    Semaphore.release ⟨0, 2, [7, 8]⟩ = (some 7, ⟨0, 2, [8]⟩) ∧
    (∀ s : Semaphore,
      (s.release).2.permits = if s.waitQueue = [] then s.permits + 1 else s.permits) :=
  claim_C4 2 (by decide) 7 8

/-- C5, counterexample.  One unmatched `release` on a fresh semaphore of
capacity 1 drives the available-permit count to 2, outside `[0, 1]`, so the
claimed invariant does not hold for every operation sequence. -/
theorem claim_C5_counterexample :
    (semRun [SemOp.rel] (SemRun.start 1)).sem.permits = 2 ∧
    ¬(semRun [SemOp.rel] (SemRun.start 1)).sem.permits ≤ 1 := by
  decide

/-- One instrumented step preserves the permit accounting invariant,
provided a `release` only happens with an outstanding grant. -/
theorem semStep_inv (C : Nat) (st : SemRun) (op : SemOp)
    (h1 : st.rels ≤ st.grants)
    (h2 : st.sem.permits + (st.grants - st.rels) = C)
    (hwf : match op with | .rel => st.rels < st.grants | _ => True) :
    (semStep st op).rels ≤ (semStep st op).grants ∧
    (semStep st op).sem.permits + ((semStep st op).grants - (semStep st op).rels) = C := by
  obtain ⟨⟨p, m, q⟩, g, r⟩ := st
  cases op with
  | acq w =>
    by_cases hp : 0 < p
    · simp_all [semStep, Semaphore.acquire]
      omega
    · simp_all [semStep, Semaphore.acquire]
  | tryAcq =>
    by_cases hp : 0 < p
    · simp_all [semStep, Semaphore.tryAcquire]
      omega
    · simp_all [semStep, Semaphore.tryAcquire]
  | rel =>
    cases q with
    | nil =>
      simp_all [semStep, Semaphore.release]
      omega
    | cons a t =>
      simp_all [semStep, Semaphore.release]

/-- The invariant carried through a well-matched operation sequence. -/
theorem semRun_inv (ops : List SemOp) : ∀ (C : Nat) (st : SemRun),
    semWF ops st = true →
    st.rels ≤ st.grants →
    st.sem.permits + (st.grants - st.rels) = C →
    (semRun ops st).rels ≤ (semRun ops st).grants ∧
    (semRun ops st).sem.permits + ((semRun ops st).grants - (semRun ops st).rels) = C := by
  induction ops with
  | nil =>
    intro C st _ h1 h2
    exact ⟨h1, h2⟩
  | cons op rest ih =>
    intro C st hwf h1 h2
    have hwf2 := hwf
    simp only [semWF, Bool.and_eq_true] at hwf2
    have hstep := semStep_inv C st op h1 h2 (by
      cases op with
      | rel => exact of_decide_eq_true hwf2.1
      | acq w => trivial
      | tryAcq => trivial)
    show (semRun rest (semStep st op)).rels ≤ _ ∧ _
    exact ih C (semStep st op) hwf2.2 hstep.1 hstep.2

/-- C5, amended.  For every sequence of acquire, tryAcquire, and release
operations on a fresh semaphore of capacity `C` in which each release is
issued while at least one granted permit is outstanding (no unmatched
release), the available count stays within `[0, C]` and equals `C` minus
the outstanding grant count. -/
theorem claim_C5_amended (C : Nat) (ops : List SemOp)
    (hwf : semWF ops (SemRun.start C) = true) :
    (semRun ops (SemRun.start C)).sem.permits ≤ C ∧
    (semRun ops (SemRun.start C)).sem.permits +
      ((semRun ops (SemRun.start C)).grants - (semRun ops (SemRun.start C)).rels) = C ∧
    (semRun ops (SemRun.start C)).rels ≤ (semRun ops (SemRun.start C)).grants := by
  have h := semRun_inv ops C (SemRun.start C) hwf (by simp [SemRun.start])
    (by simp [SemRun.start, Semaphore.create])
  exact ⟨by omega, h.2, h.1⟩

/-- C5 witness: capacity 2 with the well-matched sequence
acquire, tryAcquire, release, release. -/
theorem claim_C5_amended_witness :
    semWF [SemOp.acq 0, SemOp.tryAcq, SemOp.rel, SemOp.rel] (SemRun.start 2) = true ∧
    (semRun [SemOp.acq 0, SemOp.tryAcq, SemOp.rel, SemOp.rel] (SemRun.start 2)).sem.permits ≤ 2 :=
  ⟨by decide, (claim_C5_amended 2 [SemOp.acq 0, SemOp.tryAcq, SemOp.rel, SemOp.rel] (by decide)).1⟩

/-- C3 exhibits the bug.  Two assignments on a three-worker pool advance
the cursor to 2; removing one worker leaves two workers but the cursor
still at 2, which is not a valid position in `[0, 2)`; the next
`assignTask` then reads the undefined slot `workers[2]` and crashes (the
modelled `Except.error`), contradicting the claimed clamping. -/
theorem claim_C3_bug :
    c3sched.assignTask = .ok (some ⟨"worker-1", 1, 50, true⟩, c3mid) ∧
    c3mid.assignTask = .ok (some ⟨"worker-2", 1, 50, true⟩, c3after2) ∧
    (c3after2.removeWorker "worker-1").workers.length = 2 ∧
    (c3after2.removeWorker "worker-1").currentIndex = 2 ∧
    (c3after2.removeWorker "worker-1").assignTask = .error () :=
  ⟨rfl, rfl, rfl, rfl, rfl⟩

/-- C2, counterexample.  With a delivery oracle under which every message's
attempt fails exactly three times (the attempts at retry counts 0, 1, 2
fail and the fourth attempt, at retry count 3, succeeds), the drain drops
nothing and delivers all three messages: failing exactly three times does
not exhaust the retry budget, contradicting the claim that all three end
up dropped with three DeliveryExhausted observations. -/
theorem claim_C2_counterexample :
    countDropped (processQueue (fun _ r => decide (r = 3)) 50 c2queue).2 = 0 ∧
    countDelivered (processQueue (fun _ r => decide (r = 3)) 50 c2queue).2 = 3 ∧
    (processQueue (fun _ r => decide (r = 3)) 50 c2queue).1.getStats.total = 0 := by
  decide

/-- C2, amended.  When every delivery attempt of the three messages fails
(so each fails four times: the initial attempt plus the three retries,
exceeding the retry budget of 3), all three are dropped, each drop is
reported as an observer event (never thrown to the submitter — the drain
is a total function yielding events), and all four buckets are empty
afterwards. -/
theorem claim_C2_amended :
    (processQueue (fun _ _ => false) 50 c2queue).2 =
      [.dropped ⟨1, .normal, 1, 3⟩, .dropped ⟨2, .normal, 2, 3⟩,
        .dropped ⟨3, .normal, 3, 3⟩] ∧
    countDropped (processQueue (fun _ _ => false) 50 c2queue).2 = 3 ∧
    countDelivered (processQueue (fun _ _ => false) 50 c2queue).2 = 0 ∧
    (processQueue (fun _ _ => false) 50 c2queue).1.getStats.total = 0 := by
  decide

/-- C6.  Messages enqueued in the order LOW at time `t1`, URGENT at `t2`,
NORMAL at `t3`, URGENT at `t4` (with ascending times) are dequeued and
delivered in the order URGENT at `t2`, URGENT at `t4`, NORMAL at `t3`,
LOW at `t1`: head of the highest non-empty bucket first, FIFO by enqueue
timestamp within a bucket. -/
theorem claim_C6 (t1 t2 t3 t4 : Nat) (_h12 : t1 < t2) (h23 : t2 < t3) (h34 : t3 < t4) :
    (processQueue (fun _ _ => true) 5
        (((((PriorityMessageQueue.create Nat).enqueue ⟨1, .low, t1, 0⟩).enqueue
            ⟨2, .urgent, t2, 0⟩).enqueue ⟨3, .normal, t3, 0⟩).enqueue ⟨4, .urgent, t4, 0⟩)).2 =
      [.delivered ⟨2, .urgent, t2, 0⟩, .delivered ⟨4, .urgent, t4, 0⟩,
        .delivered ⟨3, .normal, t3, 0⟩, .delivered ⟨1, .low, t1, 0⟩] := by
  have h24 : t2 ≤ t4 := by omega
  have hq : (((((PriorityMessageQueue.create Nat).enqueue ⟨1, .low, t1, 0⟩).enqueue
      ⟨2, .urgent, t2, 0⟩).enqueue ⟨3, .normal, t3, 0⟩).enqueue ⟨4, .urgent, t4, 0⟩) =
      ⟨[⟨2, .urgent, t2, 0⟩, ⟨4, .urgent, t4, 0⟩], [], [⟨3, .normal, t3, 0⟩],
        [⟨1, .low, t1, 0⟩]⟩ := by
    show PriorityMessageQueue.mk
        (sortByTs ([⟨2, .urgent, t2, 0⟩] ++ [⟨4, .urgent, t4, 0⟩])) []
        [⟨3, .normal, t3, 0⟩] [⟨1, .low, t1, 0⟩] = _
    have hsort : sortByTs ([(⟨2, .urgent, t2, 0⟩ : QMsg Nat)] ++ [⟨4, .urgent, t4, 0⟩]) =
        [⟨2, .urgent, t2, 0⟩, ⟨4, .urgent, t4, 0⟩] := by
      simp [sortByTs, insertByTs, h24]
    rw [hsort]
  rw [hq]
  rfl

/-- C6 witness at the concrete times 1, 2, 3, 4. -/
theorem claim_C6_witness :
    (processQueue (fun _ _ => true) 5
        (((((PriorityMessageQueue.create Nat).enqueue ⟨1, .low, 1, 0⟩).enqueue
            ⟨2, .urgent, 2, 0⟩).enqueue ⟨3, .normal, 3, 0⟩).enqueue ⟨4, .urgent, 4, 0⟩)).2 =
      [.delivered ⟨2, .urgent, 2, 0⟩, .delivered ⟨4, .urgent, 4, 0⟩,
        .delivered ⟨3, .normal, 3, 0⟩, .delivered ⟨1, .low, 1, 0⟩] :=
  claim_C6 1 2 3 4 (by decide) (by decide) (by decide)

/-- C7.  With process 1 holding resource 11 and process 2 holding resource
12 (both via successful requests), whichever process then waits on the
other's resource, the request completing the circular wait is detected as a
cycle and denied: it returns false, its own pending wait is retracted (the
completing requester is removed from the wait queue and its waiting set),
and both existing grants survive — in either completion order. -/
theorem claim_C7 :
    ((DeadlockDetector.empty Nat).requestResource 1 11).1 = true ∧
    (((DeadlockDetector.empty Nat).requestResource 1 11).2.requestResource 2 12).1 = true ∧
    c7A3.1 = false ∧
    c7A4.1 = false ∧
    c7A4.2.holderOf 11 = some 1 ∧ c7A4.2.holderOf 12 = some 2 ∧
    c7A4.2.waitQueueOf 11 = [] ∧ c7A4.2.waitingOf 2 = [] ∧
    c7B3.1 = false ∧
    c7B4.1 = false ∧
    c7B4.2.holderOf 11 = some 1 ∧ c7B4.2.holderOf 12 = some 2 ∧
    c7B4.2.waitQueueOf 12 = [] ∧ c7B4.2.waitingOf 1 = [] := by
  decide

/-- Updating an association list at a key rewrites exactly what a lookup at
that key sees. -/
theorem lookupA_updateA {ι A : Type} [DecidableEq ι] (l : List (ι × A)) (k : ι)
    (f : A → A) : lookupA (updateA l k f) k = (lookupA l k).map f := by
  induction l with
  | nil => rfl
  | cons e t ih =>
    by_cases h : e.1 = k
    · simp [lookupA, updateA, List.find?, h]
    · simp only [lookupA, updateA, List.map_cons, if_neg h, List.find?]
      rw [show (decide (e.1 = k)) = false by simp [h]]
      exact ih

/-- Appending a fresh binding is what a lookup at the fresh key sees. -/
theorem lookupA_append_right {ι A : Type} [DecidableEq ι] (l : List (ι × A)) (k : ι)
    (v : A) (h : lookupA l k = none) : lookupA (l ++ [(k, v)]) k = some v := by
  induction l with
  | nil => simp [lookupA, List.find?]
  | cons e t ih =>
    have he : decide (e.1 = k) = false := by
      by_contra hc
      simp only [lookupA, List.find?, Bool.not_eq_false] at h hc
      rw [hc] at h
      simp at h
    simp only [lookupA, List.find?, he] at h
    simp only [List.cons_append, lookupA, List.find?, he]
    exact ih h

/-- C9.  A `requestResource` call returns true exactly when the resource is
free at the moment of the call (an unknown resource is created unheld and
granted); the holder afterwards is the old holder when one existed and the
requester otherwise — so a held resource is never re-granted; and in
particular a process re-requesting a resource it already holds is denied
with its pending self-wait retracted, leaving the state (and thus the
holder) exactly as before the call. -/
theorem claim_C9 :
    (∀ (ι : Type) [DecidableEq ι] (s : DeadlockDetector ι) (p r : ι),
      (s.requestResource p r).1 = s.holderFree r) ∧
    (∀ (ι : Type) [DecidableEq ι] (s : DeadlockDetector ι) (p r : ι),
      (s.requestResource p r).2.holderOf r = some ((s.holderOf r).getD p)) ∧
    ((DeadlockDetector.empty Nat).requestResource 0 100).2.requestResource 0 100 =
      (false, ((DeadlockDetector.empty Nat).requestResource 0 100).2) := by
  refine ⟨?_, ?_, by decide⟩
  · intro ι inst s p r
    cases hl : lookupA s.resources r with
    | none =>
      simp [DeadlockDetector.requestResource, DeadlockDetector.holderFree, hl]
    | some res =>
      cases hh : res.holder with
      | none => simp [DeadlockDetector.requestResource, DeadlockDetector.holderFree, hl, hh]
      | some q =>
        simp only [DeadlockDetector.requestResource, DeadlockDetector.holderFree, hl, hh]
        split <;> rfl
  · intro ι inst s p r
    cases hl : lookupA s.resources r with
    | none =>
      simp only [DeadlockDetector.requestResource, DeadlockDetector.holderOf, hl]
      rw [lookupA_updateA, lookupA_append_right _ _ _ hl]
      rfl
    | some res =>
      cases hh : res.holder with
      | none =>
        simp only [DeadlockDetector.requestResource, DeadlockDetector.holderOf, hl, hh]
        rw [lookupA_updateA, hl]
        rfl
      | some q =>
        have hrhs : s.holderOf r = some q := by
          simp [DeadlockDetector.holderOf, hl, hh]
        rw [hrhs]
        simp only [DeadlockDetector.requestResource, hl, hh]
        split
        · simp only [DeadlockDetector.holderOf]
          rw [lookupA_updateA, lookupA_updateA, hl]
          simp [hh]
        · simp only [DeadlockDetector.holderOf]
          rw [lookupA_updateA, hl]
          simp [hh]

/-- C10.  When the resource request of a send-message event is denied, the
handler emits exactly the error to the sender and returns: the priority
queue buckets, the thread cache, the threads store (with its message
logs), and the scheduler (with every worker's load) are exactly as they
were before the event. -/
theorem claim_C10 (threadId : String) (m : Message) (now : Nat) (st : ServerState)
    (hdeny : (st.deadlockDetector.requestResource m.senderId threadId).1 = false) :
    ∃ st1, sendMessageHandler threadId m now st = .ok (st1, [SocketEv.errorEmitted]) ∧
      st1.messageQueue = st.messageQueue ∧
      st1.threadCache = st.threadCache ∧
      st1.threads = st.threads ∧
      st1.messageScheduler = st.messageScheduler := by
  refine ⟨{ st with deadlockDetector := (st.deadlockDetector.requestResource m.senderId threadId).2 },
    ?_, rfl, rfl, rfl, rfl⟩
  simp [sendMessageHandler, hdeny]

/-- C10 witness: a concrete denied send leaves queue, cache, threads store,
and scheduler untouched. -/
theorem claim_C10_witness :
    ∃ st1, sendMessageHandler "t1" w10m 5 w10st = .ok (st1, [SocketEv.errorEmitted]) ∧
      st1.messageQueue = w10st.messageQueue ∧
      st1.threadCache = w10st.threadCache ∧
      st1.threads = w10st.threads ∧
      st1.messageScheduler = w10st.messageScheduler :=
  claim_C10 "t1" w10m 5 w10st (by decide)

/-- `putList` splits over list append. -/
theorem putList_append {K V : Type} [DecidableEq K] (c : LRUCache K V)
    (l1 l2 : List (K × V)) : c.putList (l1 ++ l2) = (c.putList l1).putList l2 :=
  List.foldl_append _ _ _ _

/-- `put` never changes the capacity. -/
theorem put_capacity {K V : Type} [DecidableEq K] (k : K) (v : V) (c : LRUCache K V) :
    (c.put k v).capacity = c.capacity := by
  unfold LRUCache.put
  split <;> rfl

/-- `putList` never changes the capacity. -/
theorem putList_capacity {K V : Type} [DecidableEq K] :
    ∀ (l : List (K × V)) (c : LRUCache K V), (c.putList l).capacity = c.capacity := by
  intro l
  induction l with
  | nil => intro c; rfl
  | cons e t ih =>
    intro c
    show ((c.put e.1 e.2).putList t).capacity = c.capacity
    rw [ih, put_capacity]

/-- The key list of a key-value association built from a key list. -/
theorem keys_of_pairs {K V : Type} (ks : List K) (v : K → V) :
    (ks.map fun k => (k, v k)).map Prod.fst = ks := by
  induction ks with
  | nil => rfl
  | cons a t ih =>
    simp only [List.map_cons]
    rw [ih]

/-- Filling an empty cache with at most `capacity` distinct keys evicts
nothing: the recency sequence is exactly the insertions, newest first. -/
theorem fill_entries {K V : Type} [DecidableEq K] (N : Nat) (v : K → V) :
    ∀ (ks : List K), ks.Nodup → ks.length ≤ N →
    ((LRUCache.empty K V N).putList (ks.map fun k => (k, v k))).entries =
      (ks.map fun k => (k, v k)).reverse := by
  intro ks
  induction ks using List.reverseRecOn with
  | nil =>
    intro _ _
    rfl
  | append_singleton l x ih =>
    intro hnd hlen
    rw [List.nodup_append] at hnd
    have hxl : x ∉ l := fun hmem => hnd.2.2 hmem (List.mem_singleton_self x)
    have hndl : l.Nodup := hnd.1
    have hlenl : l.length < N := by
      simp only [List.length_append, List.length_singleton] at hlen
      omega
    rw [List.map_append, putList_append]
    set c1 := (LRUCache.empty K V N).putList (l.map fun k => (k, v k)) with hc1
    have hent : c1.entries = (l.map fun k => (k, v k)).reverse := ih hndl (by omega)
    have hcap : c1.capacity = N := by rw [hc1, putList_capacity]; rfl
    have hkeys : c1.keys = l.reverse := by
      rw [LRUCache.keys, hent, ← List.map_reverse, keys_of_pairs]
    have hxk : x ∉ c1.keys := by
      rw [hkeys, List.mem_reverse]
      exact hxl
    have hlt : ¬(c1.capacity ≤ c1.entries.length) := by
      rw [hcap, hent, List.length_reverse, List.length_map]
      omega
    have hstep : c1.putList (List.map (fun k => (k, v k)) [x]) = c1.put x (v x) := rfl
    rw [hstep]
    simp only [LRUCache.put, if_neg hxk, if_neg hlt]
    rw [hent]
    simp [List.reverse_append]

/-- Putting fresh distinct keys into a full cache: each put evicts the tail
and pushes the new node, so afterwards the entries are the fresh insertions
(newest first) followed by the surviving oldest-truncated prefix. -/
theorem putList_fresh {K V : Type} [DecidableEq K] (v : K → V) :
    ∀ (fs : List K) (c : LRUCache K V), 0 < c.capacity →
    c.entries.length = c.capacity → fs.length ≤ c.capacity →
    (c.keys ++ fs).Nodup →
    (c.putList (fs.map fun k => (k, v k))).entries =
      (fs.map fun k => (k, v k)).reverse ++ c.entries.take (c.capacity - fs.length) := by
  intro fs
  induction fs with
  | nil =>
    intro c _ hfull _ _
    show c.entries = [] ++ c.entries.take (c.capacity - 0)
    rw [List.nil_append, Nat.sub_zero, ← hfull, List.take_length]
  | cons f fs' ih =>
    intro c hpos hfull hlen hnd
    have hmemf : f ∉ c.keys := by
      rw [List.nodup_append] at hnd
      exact fun hf => hnd.2.2 hf (List.mem_cons_self f fs')
    have hge : c.capacity ≤ c.entries.length := by omega
    show ((c.put f (v f)).putList (fs'.map fun k => (k, v k))).entries = _
    set c1 := c.put f (v f) with hc1
    have hent1 : c1.entries = (f, v f) :: c.entries.dropLast := by
      rw [hc1]
      simp only [LRUCache.put, if_neg hmemf, if_pos hge]
    have hcap1 : c1.capacity = c.capacity := put_capacity f (v f) c
    have hlen1 : c1.entries.length = c1.capacity := by
      rw [hent1, hcap1, List.length_cons, List.length_dropLast]
      omega
    have hkeys1 : c1.keys = f :: c.keys.dropLast := by
      rw [LRUCache.keys, hent1, List.map_cons, LRUCache.keys, List.map_dropLast]
    have hnd1 : (c1.keys ++ fs').Nodup := by
      have hperm : (f :: (c.keys ++ fs')).Nodup := List.perm_middle.nodup (by simpa using hnd)
      have hsub : List.Sublist (f :: (c.keys.dropLast ++ fs')) (f :: (c.keys ++ fs')) :=
        List.Sublist.cons₂ f (List.Sublist.append (List.dropLast_sublist _) (List.Sublist.refl _))
      rw [hkeys1]
      exact hperm.sublist hsub
    have hres := ih c1 (by omega) hlen1 (by simp at hlen ⊢; omega) hnd1
    rw [hres, hent1, hcap1]
    have hm1 : c.capacity - fs'.length = (c.capacity - (fs'.length + 1)) + 1 := by
      simp only [List.length_cons] at hlen
      omega
    rw [hm1, List.take_succ_cons, List.dropLast_eq_take, List.take_take]
    have hmin : min (c.capacity - (fs'.length + 1)) (c.entries.length - 1) =
        c.capacity - (fs'.length + 1) := by
      simp only [List.length_cons] at hlen
      omega
    rw [hmin]
    simp

/-- Removing the entry of one present key from an association with distinct
keys shortens it by exactly one. -/
theorem filter_key_length {K V : Type} [DecidableEq K] :
    ∀ (l : List (K × V)) (k : K), (l.map Prod.fst).Nodup → k ∈ l.map Prod.fst →
    (l.filter (fun e => decide (e.1 ≠ k))).length + 1 = l.length := by
  intro l
  induction l with
  | nil =>
    intro k _ hmem
    simp at hmem
  | cons e t ih =>
    intro k hnd hmem
    simp only [List.map_cons, List.nodup_cons] at hnd
    by_cases h : e.1 = k
    · have hall : t.filter (fun e2 => decide (e2.1 ≠ k)) = t := by
        refine List.filter_eq_self.2 ?_
        intro x hx
        have hne : x.1 ≠ k := fun hc => hnd.1 (h ▸ hc ▸ List.mem_map_of_mem Prod.fst hx)
        simp [hne]
      rw [List.filter_cons]
      have hdec : (decide (e.1 ≠ k)) = false := by simp [h]
      rw [hdec, hall]
      simp
    · have hmt : k ∈ t.map Prod.fst := by
        rcases List.mem_cons.1 hmem with hc | hc
        · exact absurd hc.symm h
        · exact hc
      have hih := ih k hnd.2 hmt
      rw [List.filter_cons]
      have hdec : (decide (e.1 ≠ k)) = true := by simp [h]
      rw [hdec]
      simp only [if_true, List.length_cons]
      omega


/-- Keys of a key-filtered association are the filtered keys. -/
theorem keys_filter {K V : Type} [DecidableEq K] (l : List (K × V)) (k : K) :
    (l.filter (fun e => decide (e.1 ≠ k))).map Prod.fst =
      (l.map Prod.fst).filter (fun x => decide (x ≠ k)) := by
  simp only [decide_not]
  induction l with
  | nil => rfl
  | cons e t ih => by_cases h : e.1 = k <;> simp [List.filter_cons, h, ih]

/-- Re-fronting a present key of a duplicate-free list and dropping its old
occurrence is a permutation of the list. -/
theorem cons_filter_ne_perm {K : Type} [DecidableEq K] :
    ∀ (l : List K) (a : K), l.Nodup → a ∈ l →
    List.Perm (a :: l.filter (fun x => decide (x ≠ a))) l := by
  intro l
  induction l with
  | nil =>
    intro a _ hmem
    simp at hmem
  | cons b t ih =>
    intro a hnd hmem
    rw [List.nodup_cons] at hnd
    by_cases h : b = a
    · subst h
      have hall : t.filter (fun x => decide (x ≠ b)) = t := by
        refine List.filter_eq_self.2 ?_
        intro x hx
        have hne : x ≠ b := fun hc => hnd.1 (hc ▸ hx)
        simp [hne]
      rw [List.filter_cons]
      have hdec : (decide (b ≠ b)) = false := by simp
      rw [hdec, hall]
      simp
    · have hat : a ∈ t := by
        rcases List.mem_cons.1 hmem with hc | hc
        · exact absurd hc.symm h
        · exact hc
      rw [List.filter_cons]
      have hdec : (decide (b ≠ a)) = true := by simp [h]
      rw [hdec]
      simp only [if_true]
      exact List.Perm.trans (List.Perm.swap b a _) ((ih a hnd.2 hat).cons b)

/-- A successful `find?` returns a list member satisfying the test. -/
theorem find_props {α : Type} (p : α → Bool) :
    ∀ (l : List α) (a : α), l.find? p = some a → p a = true ∧ a ∈ l := by
  intro l
  induction l with
  | nil =>
    intro a h
    simp [List.find?] at h
  | cons b t ih =>
    intro a h
    rw [List.find?] at h
    cases hpb : p b with
    | true =>
      rw [hpb] at h
      injection h with h
      subst h
      exact ⟨hpb, List.mem_cons_self b t⟩
    | false =>
      rw [hpb] at h
      obtain ⟨h1, h2⟩ := ih a h
      exact ⟨h1, List.mem_cons_of_mem b h2⟩

/-- Finding a present key in the reversed key-value association built from
a key list yields that key's pair. -/
theorem find_pair {K V : Type} [DecidableEq K] (ks : List K) (v : K → V) (k0 : K)
    (hk0 : k0 ∈ ks) :
    ((ks.map fun k => (k, v k)).reverse).find? (fun e => decide (e.1 = k0)) =
      some (k0, v k0) := by
  have hsome : (((ks.map fun k => (k, v k)).reverse).find?
      (fun e => decide (e.1 = k0))).isSome := by
    apply List.find?_isSome.2
    refine ⟨(k0, v k0), ?_, by simp⟩
    rw [List.mem_reverse, List.mem_map]
    exact ⟨k0, hk0, rfl⟩
  obtain ⟨e, he⟩ := Option.isSome_iff_exists.1 hsome
  obtain ⟨hpe0, hme⟩ := find_props (fun e => decide (e.1 = k0)) _ e he
  have hpe : e.1 = k0 := of_decide_eq_true hpe0
  rw [List.mem_reverse, List.mem_map] at hme
  obtain ⟨x, _, hxe⟩ := hme
  have hx0 : x = k0 := by
    rw [← hxe] at hpe
    exact hpe
  rw [he, ← hxe, hx0]

/-- C1, counterexample.  Capacity `N = 1`: put the single distinct key 0,
`get` it (a present key, freshly refreshed), then put `N = 1` further
distinct new key; key 0 has been evicted, contradicting part (b) of the
claim that a refreshed key survives `N` further insertions. -/
theorem claim_C1_counterexample :
    (LRUCache.putList
        ((LRUCache.get 0 (LRUCache.putList (LRUCache.empty Nat Nat 1) [(0, 0)])).2)
        [(1, 1)]).keys = [1] ∧
    0 ∉ (LRUCache.putList
        ((LRUCache.get 0 (LRUCache.putList (LRUCache.empty Nat Nat 1) [(0, 0)])).2)
        [(1, 1)]).keys := by
  decide

/-- C1, amended.  For a cache of capacity `N > 0`: (a) after putting `N+1`
distinct keys with no intervening get, exactly the first-inserted key has
been evicted and the other `N` keys are present; (b) after putting `N`
distinct keys, getting one present key `K`, and then putting at most `N-1`
further distinct new keys, `K` is still present (the `N`-th further
insertion would evict it, as the counterexample shows). -/
theorem claim_C1_amended {K V : Type} [DecidableEq K] (N : Nat) (hN : 0 < N) (v : K → V) :
    (∀ (k0 : K) (kr : List K), (k0 :: kr).Nodup → kr.length = N →
      k0 ∉ ((LRUCache.empty K V N).putList ((k0 :: kr).map fun k => (k, v k))).keys ∧
      ∀ k ∈ kr, k ∈ ((LRUCache.empty K V N).putList ((k0 :: kr).map fun k => (k, v k))).keys) ∧
    (∀ (ks fs : List K), (ks ++ fs).Nodup → ks.length = N → fs.length ≤ N - 1 →
      ∀ k0 ∈ ks,
      k0 ∈ ((LRUCache.get k0 ((LRUCache.empty K V N).putList
          (ks.map fun k => (k, v k)))).2.putList (fs.map fun k => (k, v k))).keys) := by
  constructor
  · intro k0 kr hnd hlen
    rcases List.eq_nil_or_concat kr with hc | ⟨l, x, rfl⟩
    · rw [hc] at hlen
      simp at hlen
      omega
    simp only [List.concat_eq_append] at hnd hlen ⊢
    have hlenl : l.length + 1 = N := by
      simpa using hlen
    have hndf : (k0 :: l).Nodup :=
      hnd.sublist (List.Sublist.cons₂ k0 (List.sublist_append_left l [x]))
    have hxfront : x ∉ k0 :: l := by
      have h2 := hnd
      rw [show k0 :: (l ++ [x]) = (k0 :: l) ++ [x] from rfl, List.nodup_append] at h2
      exact fun hmem => h2.2.2 hmem (List.mem_singleton_self x)
    rw [show k0 :: (l ++ [x]) = (k0 :: l) ++ [x] from rfl, List.map_append, putList_append]
    set c1 := (LRUCache.empty K V N).putList ((k0 :: l).map fun k => (k, v k)) with hc1
    have hent : c1.entries = ((k0 :: l).map fun k => (k, v k)).reverse :=
      fill_entries N v (k0 :: l) hndf (by simp; omega)
    have hcap : c1.capacity = N := by rw [hc1, putList_capacity]; rfl
    have hkeys : c1.keys = (k0 :: l).reverse := by
      rw [LRUCache.keys, hent, ← List.map_reverse, keys_of_pairs]
    have hxk : x ∉ c1.keys := by
      rw [hkeys, List.mem_reverse]
      exact hxfront
    have hge : c1.capacity ≤ c1.entries.length := by
      rw [hcap, hent, List.length_reverse, List.length_map]
      simp
      omega
    have hput : (c1.putList ([x].map fun k => (k, v k))).entries =
        (x, v x) :: (l.map fun k => (k, v k)).reverse := by
      show (c1.put x (v x)).entries = _
      simp only [LRUCache.put, if_neg hxk, if_pos hge]
      rw [hent]
      show (x, v x) :: (((k0, v k0) :: l.map fun k => (k, v k)).reverse).dropLast = _
      rw [List.reverse_cons, List.dropLast_append_of_ne_nil _ (by simp)]
      simp
    have hkeys2 : (c1.putList ([x].map fun k => (k, v k))).keys = x :: l.reverse := by
      rw [LRUCache.keys, hput, List.map_cons, ← List.map_reverse, keys_of_pairs]
    rw [hkeys2]
    have hk0x : k0 ∉ l ++ [x] := (List.nodup_cons.1 hnd).1
    constructor
    · intro hmem
      rcases List.mem_cons.1 hmem with hc2 | hc2
      · exact hk0x (by rw [hc2]; exact List.mem_append_right l (List.mem_singleton_self x))
      · exact hk0x (List.mem_append_left [x] (List.mem_reverse.1 hc2))
    · intro k hk
      rcases List.mem_append.1 hk with hc2 | hc2
      · exact List.mem_cons_of_mem x (List.mem_reverse.2 hc2)
      · rw [List.mem_singleton] at hc2
        rw [hc2]
        exact List.mem_cons_self x l.reverse
  · intro ks fs hnd hksN hfsN k0 hk0
    have hndk : ks.Nodup := by
      rw [List.nodup_append] at hnd
      exact hnd.1
    set c1 := (LRUCache.empty K V N).putList (ks.map fun k => (k, v k)) with hc1
    have hent : c1.entries = (ks.map fun k => (k, v k)).reverse :=
      fill_entries N v ks hndk (by omega)
    have hcap : c1.capacity = N := by rw [hc1, putList_capacity]; rfl
    have hfind : c1.entries.find? (fun e => decide (e.1 = k0)) = some (k0, v k0) := by
      rw [hent]
      exact find_pair ks v k0 hk0
    have hc2 : (LRUCache.get k0 c1).2 =
        { c1 with
          hits := c1.hits + 1
          entries := (k0, v k0) :: c1.entries.filter (fun e2 => decide (e2.1 ≠ k0)) } := by
      simp [LRUCache.get, hfind]
    rw [hc2]
    set c2 : LRUCache K V :=
      { c1 with
        hits := c1.hits + 1
        entries := (k0, v k0) :: c1.entries.filter (fun e2 => decide (e2.1 ≠ k0)) } with hc2d
    have hkeysrev : c1.entries.map Prod.fst = ks.reverse := by
      rw [hent, ← List.map_reverse, keys_of_pairs]
    have hlen2 : c2.entries.length = N := by
      show ((k0, v k0) :: c1.entries.filter (fun e2 => decide (e2.1 ≠ k0))).length = N
      rw [List.length_cons]
      have := filter_key_length c1.entries k0
        (by rw [hkeysrev]; exact (List.nodup_reverse).2 hndk)
        (by rw [hkeysrev]; exact List.mem_reverse.2 hk0)
      rw [hent] at this
      rw [hent]
      simp only [List.length_reverse, List.length_map] at this ⊢
      omega
    have hkeys2 : c2.keys = k0 :: (ks.reverse.filter (fun x => decide (x ≠ k0))) := by
      show ((k0, v k0) :: c1.entries.filter (fun e2 => decide (e2.1 ≠ k0))).map Prod.fst = _
      rw [List.map_cons, keys_filter, hkeysrev]
    have hperm : List.Perm (c2.keys ++ fs) (ks ++ fs) := by
      rw [hkeys2]
      refine List.Perm.append_right fs ?_
      exact (cons_filter_ne_perm ks.reverse k0 ((List.nodup_reverse).2 hndk)
        (List.mem_reverse.2 hk0)).trans (List.reverse_perm ks)
    have hnd2 : (c2.keys ++ fs).Nodup := hnd.perm hperm.symm
    have hres := putList_fresh v fs c2 (by rw [show c2.capacity = N from hcap]; omega)
      (by rw [show c2.capacity = N from hcap]; exact hlen2)
      (by rw [show c2.capacity = N from hcap]; omega) hnd2
    have hpos : 1 ≤ N - fs.length := by omega
    have htake : c2.entries.take (c2.capacity - fs.length) =
        (k0, v k0) :: (c1.entries.filter (fun e2 => decide (e2.1 ≠ k0))).take
          (c2.capacity - fs.length - 1) := by
      rw [show c2.capacity - fs.length = (c2.capacity - fs.length - 1) + 1 by
        rw [show c2.capacity = N from hcap]; omega]
      rfl
    rw [LRUCache.keys, hres, htake]
    refine List.mem_map.2 ⟨(k0, v k0), ?_, rfl⟩
    exact List.mem_append_right _ (List.mem_cons_self _ _)

/-- C1 witness: capacity 2; part (a) with keys 0, 1, 2 and part (b) with
keys 0, 1, a get of key 0, and one fresh key 2. -/
theorem claim_C1_amended_witness :
    (0 ∉ ((LRUCache.empty Nat Nat 2).putList ([0, 1, 2].map fun k => (k, k))).keys ∧
      ∀ k ∈ [1, 2], k ∈ ((LRUCache.empty Nat Nat 2).putList ([0, 1, 2].map fun k => (k, k))).keys) ∧
    0 ∈ ((LRUCache.get 0 ((LRUCache.empty Nat Nat 2).putList
        ([0, 1].map fun k => (k, k)))).2.putList ([2].map fun k => (k, k))).keys := by
  have h := claim_C1_amended 2 (by decide) (fun k : Nat => k)
  exact ⟨h.1 0 [1, 2] (by decide) (by decide),
    h.2 [0, 1] [2] (by decide) (by decide) (by decide) 0 (by decide)⟩
